import Mathlib

/-!
# Verification of the `AgeDetector` naive-Bayes age classifier

Shallow embedding of `src/python/age_detector.py` (class `AgeDetector`):
the estimator (`fit`, via `_add_prior_knowledge`) and the inference engine
(`predict`).

Modelling conventions:
* numpy float arrays are modelled over `ℚ` (exact arithmetic);
* a matrix is a `List (List ℚ)` of rows; out-of-range reads use `List.getD`
  and every theorem that touches an entry carries the in-range bound;
* the label vector is a `List ℕ`; the reference data model restricts labels
  to the range `[1, n_classes]`, and theorems carry `1 ≤ label` where the
  Python `cat - 1` row index matters (so ℕ truncated subtraction agrees
  with Python's non-negative index arithmetic);
* a numpy `IndexError` (assigning row `cat - 1` of a matrix with too few
  rows) is modelled by an `Option`-valued loop returning `none`;
* `predict`'s use of `None` (untrained model) is modelled by
  `Option (List (List ℚ))` in the `AgeDetector` state, and the resulting
  Python `AttributeError` by an explicit error value;
* `predict`'s steps after accumulating the joint score — adding the
  uniform `log(PRIOR)` constant, subtracting the row maximum, `exp`, and
  dividing by the positive row normaliser — are strictly increasing,
  row-uniform transformations, so `np.argmax` over the final probability
  row equals `np.argmax` over the accumulated joint row; the embedding
  computes that argmax directly over exact rationals
  (`argmaxIdx_map_strictMono` below records the preservation argument);
* the `np.savetxt` side effect of `predict` (file output) is not modelled.
-/

/-- Column sum of feature `j` of `X` over the rows whose label in `y`
equals `c`: one entry of `X[mask, :].sum(axis=0)` in `AgeDetector.fit`
(with `mask = (y == cat)`). -/
def mCount (X : List (List ℚ)) (y : List ℕ) (c j : ℕ) : ℚ :=
  (((X.zip y).filter (fun p => decide (p.2 = c))).map (fun p => p.1.getD j 0)).sum

/-- `sums = X[mask, :].sum(axis=0)` in `AgeDetector.fit`: the per-column
sums of the rows labelled `c`, as a vector of length `nf`. -/
def classColSums (X : List (List ℚ)) (y : List ℕ) (c : ℕ) (nf : ℕ) : List ℚ :=
  (List.range nf).map (fun j => mCount X y c j)

/-- `bins, _ = np.unique(y, return_counts=True)`: the distinct values of
`y` in increasing order. -/
def binsOf (y : List ℕ) : List ℕ :=
  (List.range (y.foldr max 0 + 1)).filter (fun c => decide (c ∈ y))

/-- The `for cat in bins:` loop of `AgeDetector.fit`, which assigns
`pos_counts[cat - 1, :] = X[mask, :].sum(axis=0)`.  Writing row `cat - 1`
of a numpy array with fewer rows raises `IndexError`; that failure is
modelled by `none`. -/
def fillRows (X : List (List ℚ)) (y : List ℕ) (nf : ℕ) :
    List ℕ → List (List ℚ) → Option (List (List ℚ))
  | [], rows => some rows
  | c :: cs, rows =>
    if c - 1 < rows.length then
      fillRows X y nf cs (rows.set (c - 1) (classColSums X y c nf))
    else none

/-- `n_followers = pos_counts.sum(axis=0)` in `_add_prior_knowledge`: the
column-`j` sum over all class rows of the positive-count matrix. -/
def nFollowers (pos : List (List ℚ)) (j : ℕ) : ℚ :=
  (pos.map (fun r => r.getD j 0)).sum

/-- `a = b * n_followers / n_data` in `_add_prior_knowledge`, at class row
`c` and feature `j`, where `b = total_counts / 10.0` and `total_counts` is
the class bucket count tiled across features. -/
def aParam (pos : List (List ℚ)) (bucketCounts : List ℚ) (nd : ℚ) (c j : ℕ) : ℚ :=
  bucketCounts.getD c 0 / 10 * nFollowers pos j / nd

/-- `AgeDetector._add_prior_knowledge(pos_counts, bucket_counts, n_data)`:
returns the pair `(pos_counts + a, total_counts + a + 1)` where
`total_counts = np.tile(bucket_counts.values, (1, pos_counts.shape[1]))`,
`b = total_counts / 10.0` and `a = b * n_followers / n_data`.  The matrix
width `pos_counts.shape[1]` is read off the first row, as numpy does for a
rectangular array. -/
def addPriorKnowledge (pos : List (List ℚ)) (bucketCounts : List ℚ) (nd : ℚ) :
    List (List ℚ) × List (List ℚ) :=
  ((List.range pos.length).map (fun c =>
      (List.range (pos.headD []).length).map (fun j =>
        (pos.getD c []).getD j 0 + aParam pos bucketCounts nd c j)),
   (List.range pos.length).map (fun c =>
      (List.range (pos.headD []).length).map (fun j =>
        bucketCounts.getD c 0 + aParam pos bucketCounts nd c j + 1)))

/-- `np.divide(pos_counts, total_counts)`: elementwise division of two
matrices of identical shape. -/
def matDiv (num den : List (List ℚ)) : List (List ℚ) :=
  (List.range num.length).map (fun c =>
    (List.range ((num.getD c []).length)).map (fun j =>
      (num.getD c []).getD j 0 / (den.getD c []).getD j 0))

/-- `n_features = X.shape[1]`. -/
def nFeatures (X : List (List ℚ)) : ℕ := (X.headD []).length

/-- The model matrix computed by `AgeDetector.fit(X, y)`:
`bins, counts = np.unique(y, return_counts=True)`;
`pos_counts = np.zeros(shape=(n_cats, n_features))` filled by the
`for cat in bins:` loop; then
`np.divide(*self._add_prior_knowledge(pos_counts, bucket_counts, n_data))`
with `n_data = X.shape[0]`.  `none` models the `IndexError` raised by the
fill loop. -/
def fitModel (X : List (List ℚ)) (y : List ℕ) : Option (List (List ℚ)) :=
  match fillRows X y (nFeatures X) (binsOf y)
      (List.replicate (binsOf y).length (List.replicate (nFeatures X) 0)) with
  | none => none
  | some pos =>
    some (matDiv
      (addPriorKnowledge pos ((binsOf y).map (fun c => (y.count c : ℚ))) (X.length)).1
      (addPriorKnowledge pos ((binsOf y).map (fun c => (y.count c : ℚ))) (X.length)).2)

/-- The positive-count matrix the bucketing loop produces when the
distinct labels are exactly `1, ..., k`: row `i` holds the per-column sums
of the training rows labelled `i + 1`. -/
def posCountsOf (X : List (List ℚ)) (y : List ℕ) (k : ℕ) : List (List ℚ) :=
  (List.range k).map (fun i => classColSums X y (i + 1) (nFeatures X))

/-- The column indices of the structurally non-zero entries of one row of
`X` (the entries visited by the `coo_mat` iteration of
`AgeDetector.predict`). -/
def nonzeroCols (xrow : List ℚ) : List ℕ :=
  (List.range xrow.length).filter (fun j => decide (xrow.getD j 0 ≠ 0))

/-- One row of the `joint` accumulator of `AgeDetector.predict` after the
sparse loop: for class `c`, the sum of `self.model[c, col]` over the
non-zero columns `col` of the input row (the loop adds
`self.model[:, col]` to the row's accumulator once per non-zero entry). -/
def jointRow (model : List (List ℚ)) (xrow : List ℚ) : List ℚ :=
  (List.range model.length).map (fun c =>
    ((nonzeroCols xrow).map (fun j => (model.getD c []).getD j 0)).sum)

/-- `np.argmax`: the first index attaining the maximum of the list
(a strictly greater value is required to displace the current best). -/
def argmaxIdx {α : Type} [LinearOrder α] (d : α) (l : List α) : ℕ :=
  (List.range l.length).foldl (fun best j => if l.getD best d < l.getD j d then j else best) 0

/-- `predicted_cat = probs.argmax(axis=1) + 1` of `AgeDetector.predict`.
The intervening transformations of `joint` (adding the uniform
`np.log(self.PRIOR)` constant, subtracting the row maximum, `np.exp`,
normalising by the positive row sum) are strictly increasing and uniform
within each row, so the argmax of the final probability row equals the
argmax of the accumulated joint row, which is what is computed here. -/
def predictCats (model : List (List ℚ)) (X : List (List ℚ)) : List ℕ :=
  X.map (fun xrow => argmaxIdx 0 (jointRow model xrow) + 1)

/-- The state of an `AgeDetector` instance: the constructor argument
`n_classes`, the uniform `PRIOR`, and the model, `none` until `fit` has
succeeded (Python initialises `self.model = None`). -/
structure AgeDetector where
  n_classes : ℕ
  PRIOR : List ℚ
  model : Option (List (List ℚ))
deriving DecidableEq

/-- `AgeDetector.__init__(n_classes)`: uniform prior, no model. -/
def AgeDetector.init (n_classes : ℕ) : AgeDetector :=
  { n_classes := n_classes
    PRIOR := List.replicate n_classes ((1 : ℚ) / n_classes)
    model := none }

/-- `AgeDetector.fit(X, y)`: stores the computed model in `self.model`,
fully replacing any previous model.  `none` models the `IndexError`
propagating out of the bucketing loop (in which case `self.model` is
never reassigned). -/
def AgeDetector.fit (d : AgeDetector) (X : List (List ℚ)) (y : List ℕ) :
    Option AgeDetector :=
  (fitModel X y).map (fun m => { d with model := some m })

/-- How a `predict` call can fail.  `noneTypeAttribute` is the Python
`AttributeError` raised by `self.model.shape` when `self.model` is still
`None` (a null-dereference-style failure); `modelNotTrained` stands for
the explicit "model not trained" error demanded by the specification.
The code contains no check producing the latter. -/
inductive PredictError where
  | noneTypeAttribute : PredictError
  | modelNotTrained : PredictError
deriving DecidableEq

/-- `AgeDetector.predict(X)`: fails on an unset model (the first statement
`n_cats, _ = self.model.shape` dereferences `None`), otherwise returns the
per-row predicted classes. -/
def AgeDetector.predict (d : AgeDetector) (X : List (List ℚ)) :
    Except PredictError (List ℕ) :=
  match d.model with
  | none => Except.error PredictError.noneTypeAttribute
  | some m => Except.ok (predictCats m X)

deriving instance DecidableEq for Except

/-- The smoothing formula of the specification:
`(m + a) / (n + a + 1)` with `b = n / 10` and `a = b * F / nd`. -/
def smoothedProb (m n F nd : ℚ) : ℚ :=
  (m + n / 10 * F / nd) / (n + n / 10 * F / nd + 1)

/-- The model entry the specification prescribes for class `c` and feature
`j`: `smoothedProb` applied to `m_cj` (column sum of feature `j` over rows
labelled `c`), `n_c` (number of rows labelled `c`), `F_j` (sum of `m_cj`
over all distinct classes) and `n_samples`. -/
def specEntry (X : List (List ℚ)) (y : List ℕ) (c j : ℕ) : ℚ :=
  smoothedProb (mCount X y c j) (y.count c)
    (((binsOf y).map (fun b => mCount X y b j)).sum) (X.length)

/-! ### Generic list lemmas -/

theorem getD_map_range {α : Type} (f : ℕ → α) {n i : ℕ} (h : i < n) (d : α) :
    ((List.range n).map f).getD i d = f i := by
  rw [List.getD_eq_getElem _ _ (by simpa using h), List.getElem_map,
    List.getElem_range]

theorem le_foldr_max (y : List ℕ) : ∀ c ∈ y, c ≤ y.foldr max 0 := by
  intro c hc
  induction y with
  | nil => cases hc
  | cons a t ih =>
    rcases List.mem_cons.mp hc with h | h
    · simpa [h] using Nat.le_max_left a (t.foldr max 0)
    · exact le_trans (ih h) (Nat.le_max_right a (t.foldr max 0))

theorem mem_binsOf {y : List ℕ} {c : ℕ} : c ∈ binsOf y ↔ c ∈ y := by
  unfold binsOf
  simp only [List.mem_filter, List.mem_range, decide_eq_true_eq]
  constructor
  · exact fun h => h.2
  · exact fun h => ⟨Nat.lt_succ_of_le (le_foldr_max y c h), h⟩

theorem nodup_binsOf (y : List ℕ) : (binsOf y).Nodup :=
  (List.nodup_range _).filter _

theorem pairwise_binsOf (y : List ℕ) : (binsOf y).Pairwise (· < ·) :=
  (List.pairwise_lt_range _).filter _

/-- Pigeonhole: a strictly increasing list of naturals, all lying in
`[1, l.length]`, is exactly `[1, 2, ..., l.length]`. -/
theorem sorted_eq_range' (l : List ℕ) (hp : l.Pairwise (· < ·))
    (hmem : ∀ c ∈ l, 1 ≤ c ∧ c ≤ l.length) : l = List.range' 1 l.length := by
  have hnd : l.Nodup := hp.imp (fun h => Nat.ne_of_lt h)
  have hnd' : (List.range' 1 l.length).Nodup := List.nodup_range' _ _
  have hsub : l.toFinset ⊆ Finset.Icc 1 l.length := by
    intro a ha
    rcases hmem a (List.mem_toFinset.mp ha) with ⟨h1, h2⟩
    exact Finset.mem_Icc.mpr ⟨h1, h2⟩
  have hcard : (Finset.Icc 1 l.length).card ≤ l.toFinset.card := by
    rw [List.toFinset_card_of_nodup hnd, Nat.card_Icc]
    omega
  have hfin : l.toFinset = Finset.Icc 1 l.length :=
    Finset.eq_of_subset_of_card_le hsub hcard
  have hiff : ∀ a, a ∈ l ↔ a ∈ List.range' 1 l.length := by
    intro a
    rw [← List.mem_toFinset, hfin, Finset.mem_Icc, List.mem_range'_1]
    omega
  have hperm : l.Perm (List.range' 1 l.length) :=
    (List.perm_ext_iff_of_nodup hnd hnd').mpr hiff
  have hs1 : l.Sorted (· ≤ ·) := hp.imp (fun h => Nat.le_of_lt h)
  have hs2 : (List.range' 1 l.length).Sorted (· ≤ ·) :=
    (List.pairwise_lt_range' _ _).imp (fun h => Nat.le_of_lt h)
  exact List.eq_of_perm_of_sorted hperm hs1 hs2

theorem binsOf_eq_range' {y : List ℕ} (hy : ∀ b ∈ y, 1 ≤ b)
    (hle : ∀ b ∈ binsOf y, b ≤ (binsOf y).length) :
    binsOf y = List.range' 1 (binsOf y).length :=
  sorted_eq_range' _ (pairwise_binsOf y)
    (fun c hc => ⟨hy c (mem_binsOf.mp hc), hle c hc⟩)

/-! ### The bucketing loop -/

theorem fillRows_isSome (X : List (List ℚ)) (y : List ℕ) (nf : ℕ) :
    ∀ (cs : List ℕ) (rows : List (List ℚ)),
      (fillRows X y nf cs rows).isSome ↔ ∀ c ∈ cs, c - 1 < rows.length := by
  intro cs
  induction cs with
  | nil => intro rows; simp [fillRows]
  | cons c cs ih =>
    intro rows
    by_cases h : c - 1 < rows.length
    · simp [fillRows, h, ih, List.length_set]
    · simp [fillRows, h]

theorem fillRows_getD (X : List (List ℚ)) (y : List ℕ) (nf : ℕ) :
    ∀ (cs : List ℕ) (rows out : List (List ℚ)),
      (∀ c ∈ cs, 1 ≤ c) →
      fillRows X y nf cs rows = some out →
      out.length = rows.length ∧
        ∀ i, i < rows.length →
          out.getD i [] =
            if i + 1 ∈ cs then classColSums X y (i + 1) nf else rows.getD i [] := by
  intro cs
  induction cs with
  | nil =>
    intro rows out _ hfill
    simp only [fillRows, Option.some.injEq] at hfill
    subst hfill
    simp
  | cons c cs ih =>
    intro rows out hpos hfill
    simp only [fillRows] at hfill
    by_cases h : c - 1 < rows.length
    · rw [if_pos h] at hfill
      have hc1 : 1 ≤ c := hpos c (List.mem_cons_self c cs)
      obtain ⟨hlen, hget⟩ :=
        ih (rows.set (c - 1) (classColSums X y c nf)) out
          (fun b hb => hpos b (List.mem_cons_of_mem c hb)) hfill
      rw [List.length_set] at hlen
      refine ⟨hlen, fun i hi => ?_⟩
      have hget' := hget i (by simpa [List.length_set] using hi)
      by_cases hmem : i + 1 ∈ cs
      · rw [hget', if_pos hmem, if_pos (List.mem_cons_of_mem c hmem)]
      · rw [hget', if_neg hmem]
        by_cases heq : c - 1 = i
        · have hc : c = i + 1 := by omega
          rw [List.getD_eq_getElem _ _ (by simpa [List.length_set] using hi),
            List.getElem_set (by simpa [List.length_set] using hi), if_pos heq,
            if_pos (by rw [← hc]; exact List.mem_cons_self c cs), hc]
        · have hne : i + 1 ∉ c :: cs := by
            intro hmem'
            rcases List.mem_cons.mp hmem' with h' | h'
            · omega
            · exact hmem h'
          rw [List.getD_eq_getElem _ _ (by simpa [List.length_set] using hi),
            List.getElem_set (by simpa [List.length_set] using hi), if_neg heq,
            if_neg hne, List.getD_eq_getElem _ _ hi]
    · rw [if_neg h] at hfill
      cases hfill

/-! ### Characterisation of the fitted model -/

theorem headD_map_range {α : Type} (f : ℕ → α) {k : ℕ} (hk : 0 < k) (d : α) :
    ((List.range k).map f).headD d = f 0 := by
  obtain ⟨k', rfl⟩ : ∃ k', k = k' + 1 := ⟨k - 1, by omega⟩
  rw [List.range_succ_eq_map]
  simp

theorem fitModel_isSome_iff {X : List (List ℚ)} {y : List ℕ}
    (hy : ∀ b ∈ y, 1 ≤ b) :
    (fitModel X y).isSome ↔ binsOf y = List.range' 1 (binsOf y).length := by
  have hmatch : (fitModel X y).isSome =
      (fillRows X y (nFeatures X) (binsOf y)
        (List.replicate (binsOf y).length (List.replicate (nFeatures X) 0))).isSome := by
    unfold fitModel
    cases hfill : fillRows X y (nFeatures X) (binsOf y)
        (List.replicate (binsOf y).length (List.replicate (nFeatures X) 0)) with
    | none => simp
    | some pos => simp
  rw [hmatch, fillRows_isSome]
  simp only [List.length_replicate]
  constructor
  · intro h
    exact binsOf_eq_range' hy (fun b hb => by
      have h1 : 1 ≤ b := hy b (mem_binsOf.mp hb)
      have h2 := h b hb
      omega)
  · intro h b hb
    rw [h] at hb
    rw [List.mem_range'_1] at hb
    omega

theorem fitModel_eq (X : List (List ℚ)) {y : List ℕ} {k : ℕ}
    (hbins : binsOf y = List.range' 1 k) :
    fitModel X y = some (matDiv
      (addPriorKnowledge (posCountsOf X y k)
        ((binsOf y).map (fun c => (y.count c : ℚ))) (X.length)).1
      (addPriorKnowledge (posCountsOf X y k)
        ((binsOf y).map (fun c => (y.count c : ℚ))) (X.length)).2) := by
  have hk : (binsOf y).length = k := by rw [hbins, List.length_range']
  have hbound : ∀ c ∈ binsOf y, c - 1 < (binsOf y).length := by
    intro c hc
    rw [hbins] at hc
    rw [List.mem_range'_1] at hc
    omega
  have hsome : (fillRows X y (nFeatures X) (binsOf y)
      (List.replicate (binsOf y).length (List.replicate (nFeatures X) 0))).isSome := by
    rw [fillRows_isSome]
    simpa using hbound
  obtain ⟨out, hfill⟩ := Option.isSome_iff_exists.mp hsome
  have hpos1 : ∀ c ∈ binsOf y, 1 ≤ c := by
    intro c hc
    rw [hbins] at hc
    rw [List.mem_range'_1] at hc
    omega
  obtain ⟨hlen, hget⟩ := fillRows_getD X y (nFeatures X) (binsOf y) _ out hpos1 hfill
  rw [List.length_replicate] at hlen
  have hout : out = posCountsOf X y k := by
    apply List.ext_getElem
    · rw [hlen, hk]
      simp [posCountsOf]
    · intro i h1 h2
      have hik : i < k := by rw [hlen, hk] at h1; exact h1
      have hmem : i + 1 ∈ binsOf y := by
        rw [hbins, List.mem_range'_1]
        omega
      have := hget i (by simp [List.length_replicate, hk]; omega)
      rw [if_pos hmem] at this
      rw [← List.getD_eq_getElem out [] h1, this]
      simp [posCountsOf]
  unfold fitModel
  rw [hfill, hout]

theorem fitModel_shape {X : List (List ℚ)} {y : List ℕ} {M : List (List ℚ)}
    (hy : ∀ b ∈ y, 1 ≤ b) (hfit : fitModel X y = some M) :
    M.length = (binsOf y).length ∧ ∀ r ∈ M, r.length = nFeatures X := by
  have hsome : (fitModel X y).isSome := by rw [hfit]; rfl
  have hbins := (fitModel_isSome_iff hy).mp hsome
  set k := (binsOf y).length with hkdef
  have hM : M = matDiv
      (addPriorKnowledge (posCountsOf X y k)
        ((binsOf y).map (fun c => (y.count c : ℚ))) (X.length)).1
      (addPriorKnowledge (posCountsOf X y k)
        ((binsOf y).map (fun c => (y.count c : ℚ))) (X.length)).2 := by
    have h2 := fitModel_eq X hbins
    rw [hfit] at h2
    exact Option.some.inj h2
  constructor
  · rw [hM]
    simp [matDiv, addPriorKnowledge, posCountsOf]
  · intro r hr
    rw [hM] at hr
    unfold matDiv at hr
    rw [List.mem_map] at hr
    obtain ⟨c, hc, hrc⟩ := hr
    rw [List.mem_range] at hc
    have hcnum : c < (addPriorKnowledge (posCountsOf X y k)
        ((binsOf y).map (fun b => (y.count b : ℚ))) (X.length)).1.length := hc
    have hk1 : 0 < k := by
      by_contra hk0
      have : k = 0 := by omega
      rw [this] at hcnum
      simp [addPriorKnowledge, posCountsOf] at hcnum
    have hhead : ((posCountsOf X y k).headD []).length = nFeatures X := by
      unfold posCountsOf
      rw [headD_map_range _ hk1]
      simp [classColSums]
    rw [← hrc]
    simp only [List.length_map, List.length_range]
    rw [addPriorKnowledge]
    simp only
    rw [getD_map_range _ (by simpa [addPriorKnowledge, posCountsOf] using hc)]
    simp only [List.length_map, List.length_range]
    exact hhead

theorem fitModel_entry {X : List (List ℚ)} {y : List ℕ} {M : List (List ℚ)} {c j : ℕ}
    (hy : ∀ b ∈ y, 1 ≤ b) (hfit : fitModel X y = some M)
    (hc : c ∈ binsOf y) (hj : j < nFeatures X) :
    (M.getD (c - 1) []).getD j 0 = specEntry X y c j := by
  have hsome : (fitModel X y).isSome := by rw [hfit]; rfl
  have hbins := (fitModel_isSome_iff hy).mp hsome
  set k := (binsOf y).length with hkdef
  have hcr : c ∈ List.range' 1 k := hbins ▸ hc
  rw [List.mem_range'_1] at hcr
  have hc1 : 1 ≤ c := hcr.1
  have hck : c - 1 < k := by omega
  have hk1 : 0 < k := by omega
  set pos := posCountsOf X y k with hposdef
  set bc := (binsOf y).map (fun b => (y.count b : ℚ)) with hbcdef
  set nd : ℚ := (X.length : ℚ) with hnddef
  have hM : M = matDiv (addPriorKnowledge pos bc nd).1 (addPriorKnowledge pos bc nd).2 := by
    have h2 := fitModel_eq X hbins
    rw [hfit] at h2
    exact Option.some.inj h2
  have hposlen : pos.length = k := by simp [hposdef, posCountsOf]
  have hhead : (pos.headD []).length = nFeatures X := by
    rw [hposdef]
    unfold posCountsOf
    rw [headD_map_range _ hk1]
    simp [classColSums]
  have hposrow : pos.getD (c - 1) [] = classColSums X y c (nFeatures X) := by
    rw [hposdef]
    unfold posCountsOf
    rw [getD_map_range _ hck]
    congr 1
    omega
  have hposent : (pos.getD (c - 1) []).getD j 0 = mCount X y c j := by
    rw [hposrow]
    unfold classColSums
    rw [getD_map_range _ hj]
  have hbcent : bc.getD (c - 1) 0 = (y.count c : ℚ) := by
    rw [hbcdef, hbins, List.range'_eq_map_range, List.map_map]
    rw [getD_map_range _ hck]
    simp only [Function.comp]
    congr 2
    omega
  have hcol : ∀ i, (classColSums X y (i + 1) (nFeatures X)).getD j 0 = mCount X y (i + 1) j := by
    intro i
    unfold classColSums
    rw [getD_map_range _ hj]
  have hFent : nFollowers pos j = ((binsOf y).map (fun b => mCount X y b j)).sum := by
    unfold nFollowers
    rw [hposdef]
    unfold posCountsOf
    rw [List.map_map, hbins, List.range'_eq_map_range, List.map_map]
    congr 1
    apply List.map_congr_left
    intro i _
    show (classColSums X y (i + 1) (nFeatures X)).getD j 0 = mCount X y (1 + i) j
    rw [hcol i, Nat.add_comm i 1]
  have hnumlen : (addPriorKnowledge pos bc nd).1.length = k := by
    simp [addPriorKnowledge, hposlen]
  have hckpos : c - 1 < pos.length := by rw [hposlen]; exact hck
  have hnumrow : (addPriorKnowledge pos bc nd).1.getD (c - 1) [] =
      (List.range (nFeatures X)).map
        (fun j' => (pos.getD (c - 1) []).getD j' 0 + aParam pos bc nd (c - 1) j') := by
    unfold addPriorKnowledge
    simp only
    rw [getD_map_range _ hckpos, hhead]
  have hdenrow : (addPriorKnowledge pos bc nd).2.getD (c - 1) [] =
      (List.range (nFeatures X)).map
        (fun j' => bc.getD (c - 1) 0 + aParam pos bc nd (c - 1) j' + 1) := by
    unfold addPriorKnowledge
    simp only
    rw [getD_map_range _ hckpos, hhead]
  have hMrow : M.getD (c - 1) [] =
      (List.range (nFeatures X)).map (fun j' =>
        ((addPriorKnowledge pos bc nd).1.getD (c - 1) []).getD j' 0 /
          ((addPriorKnowledge pos bc nd).2.getD (c - 1) []).getD j' 0) := by
    rw [hM]
    unfold matDiv
    have hcknum : c - 1 < (addPriorKnowledge pos bc nd).1.length := by
      rw [hnumlen]; exact hck
    rw [getD_map_range _ hcknum]
    rw [hnumrow]
    simp only [List.length_map, List.length_range]
  have hnument : ((addPriorKnowledge pos bc nd).1.getD (c - 1) []).getD j 0 =
      mCount X y c j + aParam pos bc nd (c - 1) j := by
    rw [hnumrow, getD_map_range _ hj, hposent]
  have hdenent : ((addPriorKnowledge pos bc nd).2.getD (c - 1) []).getD j 0 =
      (y.count c : ℚ) + aParam pos bc nd (c - 1) j + 1 := by
    rw [hdenrow, getD_map_range _ hj, hbcent]
  have haent : aParam pos bc nd (c - 1) j =
      (y.count c : ℚ) / 10 * (((binsOf y).map (fun b => mCount X y b j)).sum) / nd := by
    unfold aParam
    rw [hbcent, hFent]
  rw [hMrow, getD_map_range _ hj, hnument, hdenent, haent]
  unfold specEntry smoothedProb
  rfl

/-! ### The argmax of `predict` -/

theorem foldl_argmax_bound {α : Type} [LinearOrder α] (d : α) (l : List α) (n : ℕ) :
    ∀ (js : List ℕ) (b : ℕ), b < n → (∀ j ∈ js, j < n) →
      js.foldl (fun best j => if l.getD best d < l.getD j d then j else best) b < n := by
  intro js
  induction js with
  | nil => intro b hb _; exact hb
  | cons j js ih =>
    intro b hb hjs
    simp only [List.foldl_cons]
    by_cases h : l.getD b d < l.getD j d
    · rw [if_pos h]
      exact ih j (hjs j (List.mem_cons_self j js)) (fun a ha => hjs a (List.mem_cons_of_mem j ha))
    · rw [if_neg h]
      exact ih b hb (fun a ha => hjs a (List.mem_cons_of_mem j ha))

theorem argmaxIdx_lt_length {α : Type} [LinearOrder α] (d : α) (l : List α)
    (hl : 0 < l.length) : argmaxIdx d l < l.length := by
  unfold argmaxIdx
  exact foldl_argmax_bound d l l.length (List.range l.length) 0 hl
    (fun j hj => List.mem_range.mp hj)

theorem foldl_argmax_stay {α : Type} [LinearOrder α] (d : α) (l : List α) :
    ∀ (js : List ℕ), (∀ j ∈ js, ¬ l.getD 0 d < l.getD j d) →
      js.foldl (fun best j => if l.getD best d < l.getD j d then j else best) 0 = 0 := by
  intro js
  induction js with
  | nil => intro _; rfl
  | cons j js ih =>
    intro h
    simp only [List.foldl_cons]
    rw [if_neg (h j (List.mem_cons_self j js))]
    exact ih (fun a ha => h a (List.mem_cons_of_mem j ha))

theorem argmaxIdx_of_le_head {α : Type} [LinearOrder α] (d : α) (l : List α)
    (h : ∀ j, j < l.length → l.getD j d ≤ l.getD 0 d) : argmaxIdx d l = 0 := by
  unfold argmaxIdx
  exact foldl_argmax_stay d l (List.range l.length)
    (fun j hj => not_lt.mpr (h j (List.mem_range.mp hj)))

theorem jointRow_length (model : List (List ℚ)) (xrow : List ℚ) :
    (jointRow model xrow).length = model.length := by
  simp [jointRow]

theorem nonzeroCols_eq_nil {xrow : List ℚ} (h : ∀ v ∈ xrow, v = 0) :
    nonzeroCols xrow = [] := by
  unfold nonzeroCols
  rw [List.filter_eq_nil]
  intro j hj
  rw [List.mem_range] at hj
  simp only [decide_eq_true_eq, not_not]
  rw [List.getD_eq_getElem _ _ hj]
  exact h _ (List.getElem_mem hj)

theorem jointRow_of_zero_row {model : List (List ℚ)} {xrow : List ℚ}
    (h : ∀ v ∈ xrow, v = 0) :
    jointRow model xrow = (List.range model.length).map (fun _ => 0) := by
  unfold jointRow
  rw [nonzeroCols_eq_nil h]
  simp

/-! ### Counting and bounds for the entries -/

theorem filter_zip_length {X : List (List ℚ)} {y : List ℕ} {c : ℕ}
    (hlen : X.length = y.length) :
    ((X.zip y).filter (fun p => decide (p.2 = c))).length = y.count c := by
  have hmap : (X.zip y).map Prod.snd = y := List.map_snd_zip X y hlen.ge
  rw [← List.countP_eq_length_filter]
  calc List.countP (fun p => decide (p.2 = c)) (X.zip y)
      = List.countP (fun b => decide (b = c)) ((X.zip y).map Prod.snd) := by
        rw [List.countP_map]
        rfl
    _ = y.count c := by
        rw [hmap, List.count_eq_countP]
        apply List.countP_congr
        intro b _
        simp

theorem mCount_nonneg {X : List (List ℚ)} {y : List ℕ} {c j : ℕ}
    (hbin : ∀ r ∈ X, ∀ v ∈ r, v = 0 ∨ v = 1) : 0 ≤ mCount X y c j := by
  unfold mCount
  apply List.sum_nonneg
  intro x hx
  rw [List.mem_map] at hx
  obtain ⟨p, hp, rfl⟩ := hx
  have hpX : p.1 ∈ X := (List.of_mem_zip (List.mem_of_mem_filter hp)).1
  by_cases hjl : j < p.1.length
  · rw [List.getD_eq_getElem _ _ hjl]
    rcases hbin p.1 hpX _ (List.getElem_mem hjl) with h | h <;> simp [h]
  · rw [List.getD_eq_default _ _ (by omega)]

theorem mCount_le_count {X : List (List ℚ)} {y : List ℕ} {c j : ℕ}
    (hbin : ∀ r ∈ X, ∀ v ∈ r, v = 0 ∨ v = 1) (hlen : X.length = y.length) :
    mCount X y c j ≤ (y.count c : ℚ) := by
  unfold mCount
  have hterm : ∀ x ∈ ((X.zip y).filter (fun p => decide (p.2 = c))).map
      (fun p => p.1.getD j 0), x ≤ (1 : ℚ) := by
    intro x hx
    rw [List.mem_map] at hx
    obtain ⟨p, hp, rfl⟩ := hx
    have hpX : p.1 ∈ X := (List.of_mem_zip (List.mem_of_mem_filter hp)).1
    by_cases hjl : j < p.1.length
    · rw [List.getD_eq_getElem _ _ hjl]
      rcases hbin p.1 hpX _ (List.getElem_mem hjl) with h | h <;> simp [h]
    · rw [List.getD_eq_default _ _ (by omega)]
      norm_num
  have h1 := List.sum_le_card_nsmul _ _ hterm
  rw [List.length_map, filter_zip_length hlen] at h1
  calc (((X.zip y).filter (fun p => decide (p.2 = c))).map (fun p => p.1.getD j 0)).sum
      ≤ (y.count c) • (1 : ℚ) := h1
    _ = (y.count c : ℚ) := by rw [nsmul_eq_mul, mul_one]

/-- Bounds on the smoothing formula: with `0 ≤ m ≤ n`, `1 ≤ n`, `0 ≤ F`
and a positive sample count the entry lies in `[0, 1)`, and it is strictly
positive as soon as `F` is. -/
theorem smoothedProb_bounds {m n F nd : ℚ} (hm0 : 0 ≤ m) (hmn : m ≤ n) (hn1 : 1 ≤ n)
    (hF : 0 ≤ F) (hnd : 0 < nd) :
    0 ≤ smoothedProb m n F nd ∧ smoothedProb m n F nd < 1 ∧
      (0 < F → 0 < smoothedProb m n F nd) := by
  unfold smoothedProb
  have ha : 0 ≤ n / 10 * F / nd :=
    div_nonneg (mul_nonneg (div_nonneg (by linarith) (by norm_num)) hF) hnd.le
  set a := n / 10 * F / nd with hadef
  have hden : 0 < n + a + 1 := by linarith
  refine ⟨div_nonneg (by linarith) hden.le, ?_, ?_⟩
  · rw [div_lt_one hden]
    linarith
  · intro hFpos
    have hapos : 0 < a := by
      rw [hadef]
      exact div_pos (mul_pos (div_pos (by linarith) (by norm_num)) hFpos) hnd
    exact div_pos (by linarith) hden

/-- Strict monotonicity of the smoothing formula when one positive count
(and with it the feature's total popularity) grows by one. -/
theorem smoothedProb_strictMono {m n F nd : ℚ} (hm0 : 0 ≤ m) (hmn : m ≤ n)
    (hF : 0 ≤ F) (hn0 : 0 ≤ n) (hnd : 0 < nd) :
    smoothedProb m n F nd < smoothedProb (m + 1) n (F + 1) nd := by
  unfold smoothedProb
  have ha : 0 ≤ n / 10 * F / nd :=
    div_nonneg (mul_nonneg (div_nonneg hn0 (by norm_num)) hF) hnd.le
  have he : 0 ≤ n / 10 / nd := div_nonneg (div_nonneg hn0 (by norm_num)) hnd.le
  have hsplit : n / 10 * (F + 1) / nd = n / 10 * F / nd + n / 10 / nd := by ring
  rw [hsplit]
  set a := n / 10 * F / nd with hadef
  set e := n / 10 / nd with hedef
  rw [div_lt_div_iff (by linarith) (by linarith)]
  have hem : 0 ≤ e * (n - m) := mul_nonneg he (by linarith)
  nlinarith [hem, ha, he]

/-- Every entry of a successfully fitted model lies in `[0, 1)`; it is
strictly positive whenever the feature's total popularity `F_j` over the
training set is positive. -/
theorem fitModel_entry_bounds {X : List (List ℚ)} {y : List ℕ} {M : List (List ℚ)}
    {i j : ℕ} (hy : ∀ b ∈ y, 1 ≤ b) (hbin : ∀ r ∈ X, ∀ v ∈ r, v = 0 ∨ v = 1)
    (hlen : X.length = y.length) (hfit : fitModel X y = some M)
    (hi : i < M.length) (hj : j < (M.getD i []).length) :
    0 ≤ (M.getD i []).getD j 0 ∧ (M.getD i []).getD j 0 < 1 ∧
      (0 < ((binsOf y).map (fun b => mCount X y b j)).sum → 0 < (M.getD i []).getD j 0) := by
  obtain ⟨hklen, hrows⟩ := fitModel_shape hy hfit
  have hsome : (fitModel X y).isSome := by rw [hfit]; rfl
  have hbins := (fitModel_isSome_iff hy).mp hsome
  have hrow : M.getD i [] ∈ M := by
    rw [List.getD_eq_getElem _ _ hi]
    exact List.getElem_mem hi
  have hjn : j < nFeatures X := by
    rw [hrows _ hrow] at hj
    exact hj
  have hcmem : i + 1 ∈ binsOf y := by
    rw [hbins, List.mem_range'_1]
    rw [hklen] at hi
    omega
  have hentry := fitModel_entry hy hfit hcmem hjn
  rw [Nat.add_sub_cancel] at hentry
  rw [hentry]
  unfold specEntry
  have hcy : i + 1 ∈ y := mem_binsOf.mp hcmem
  have hcount1 : 1 ≤ (y.count (i + 1) : ℚ) := by
    have : 0 < y.count (i + 1) := List.count_pos_iff.mpr hcy
    exact_mod_cast this
  have hndpos : 0 < ((X.length : ℚ)) := by
    have hy0 : 0 < y.length := List.length_pos.mpr (List.ne_nil_of_mem hcy)
    rw [hlen]
    exact_mod_cast hy0
  have hFnn : 0 ≤ ((binsOf y).map (fun b => mCount X y b j)).sum := by
    apply List.sum_nonneg
    intro x hx
    rw [List.mem_map] at hx
    obtain ⟨b, _, rfl⟩ := hx
    exact mCount_nonneg hbin
  exact smoothedProb_bounds (mCount_nonneg hbin) (mCount_le_count hbin hlen)
    hcount1 hFnn hndpos

/-! ### Faithfulness of the argmax embedding of `predict` -/

theorem foldl_argmax_map {f : ℚ → ℝ} (hf : StrictMono f) (l : List ℚ) :
    ∀ (js : List ℕ) (b : ℕ), b < l.length → (∀ j ∈ js, j < l.length) →
      js.foldl (fun best j =>
          if (l.map f).getD best (f 0) < (l.map f).getD j (f 0) then j else best) b
        = js.foldl (fun best j => if l.getD best 0 < l.getD j 0 then j else best) b := by
  intro js
  induction js with
  | nil => intro b _ _; rfl
  | cons j js ih =>
    intro b hb hjs
    have hjlt : j < l.length := hjs j (List.mem_cons_self j js)
    have hmb : (l.map f).getD b (f 0) = f (l.getD b 0) := by
      rw [List.getD_eq_getElem _ _ (by simpa using hb), List.getElem_map,
        List.getD_eq_getElem _ _ hb]
    have hmj : (l.map f).getD j (f 0) = f (l.getD j 0) := by
      rw [List.getD_eq_getElem _ _ (by simpa using hjlt), List.getElem_map,
        List.getD_eq_getElem _ _ hjlt]
    simp only [List.foldl_cons]
    rw [hmb, hmj]
    by_cases h : l.getD b 0 < l.getD j 0
    · rw [if_pos (hf h), if_pos h]
      exact ih j hjlt (fun a ha => hjs a (List.mem_cons_of_mem j ha))
    · rw [if_neg (fun hc => h (hf.lt_iff_lt.mp hc)), if_neg h]
      exact ih b hb (fun a ha => hjs a (List.mem_cons_of_mem j ha))

/-- Any strictly increasing map applied entrywise — such as composing the
uniform log-prior shift, the row-maximum shift, `exp`, and division by the
positive normaliser in `AgeDetector.predict` — leaves the first-maximum
index unchanged, which is why `predictCats` may take the argmax of the
joint scores directly. -/
theorem argmaxIdx_map_strictMono {f : ℚ → ℝ} (hf : StrictMono f) (l : List ℚ) :
    argmaxIdx (f 0) (l.map f) = argmaxIdx 0 l := by
  cases l with
  | nil => rfl
  | cons a t =>
    unfold argmaxIdx
    rw [List.length_map]
    exact foldl_argmax_map hf (a :: t) (List.range (a :: t).length) 0 (by simp)
      (fun j hj => List.mem_range.mp hj)

/-- The concrete per-row transformation `predict` applies after the joint
accumulation — adding the log-prior constant `C`, subtracting the row
maximum `mx`, exponentiating and dividing by the positive normaliser `Z` —
is strictly increasing, so it preserves the argmax. -/
theorem argmaxIdx_predict_pipeline (l : List ℚ) (C mx Z : ℝ) (hZ : 0 < Z) :
    argmaxIdx (Real.exp (((0 : ℚ) : ℝ) + C - mx) / Z)
      (l.map (fun v : ℚ => Real.exp ((v : ℝ) + C - mx) / Z)) = argmaxIdx 0 l := by
  have hf : StrictMono (fun v : ℚ => Real.exp ((v : ℝ) + C - mx) / Z) := by
    intro u v huv
    have h1 : (u : ℝ) < (v : ℝ) := by exact_mod_cast huv
    have h2 : Real.exp ((u : ℝ) + C - mx) < Real.exp ((v : ℝ) + C - mx) := by
      apply Real.exp_lt_exp.mpr
      linarith
    exact div_lt_div_of_pos_right h2 hZ
  exact argmaxIdx_map_strictMono hf l

/-! ### Concrete evaluations

Kernel reduction cannot evaluate `ℚ` arithmetic (its operations normalise
through `Nat.gcd`), so the concrete model computations used by witnesses
and counterexamples are established once here by simp-driven evaluation
with `norm_num`. -/

theorem fitDemo_eq :
    fitModel [[1,0],[1,0],[0,1],[0,1]] [1,1,2,2]
      = some [[21/31, 1/31], [1/31, 21/31]] := by
  norm_num [fitModel, binsOf, fillRows, classColSums, mCount, addPriorKnowledge, aParam,
    nFollowers, matDiv, nFeatures, List.range_succ, List.count, List.replicate_succ,
    List.getD, List.set]

theorem fitZeroColumn_eq :
    fitModel [[1,0],[1,0]] [1,2] = some [[11/21, 0], [11/21, 0]] := by
  norm_num [fitModel, binsOf, fillRows, classColSums, mCount, addPriorKnowledge, aParam,
    nFollowers, matDiv, nFeatures, List.range_succ, List.count, List.replicate_succ,
    List.getD, List.set]

theorem fitOneClass_eq :
    fitModel [[1,0]] [1] = some [[11/21, 0]] := by
  norm_num [fitModel, binsOf, fillRows, classColSums, mCount, addPriorKnowledge, aParam,
    nFollowers, matDiv, nFeatures, List.range_succ, List.count, List.replicate_succ,
    List.getD, List.set]

theorem predictDemo_one :
    predictCats [[(21 : ℚ)/31, 1/31], [1/31, 21/31]] [[1,0]] = [1] := by
  norm_num [predictCats, jointRow, nonzeroCols, argmaxIdx, List.range_succ,
    List.filter_cons, List.getD, decide_eq_true_eq]

theorem predictDemo_two :
    predictCats [[(21 : ℚ)/31, 1/31], [1/31, 21/31]] [[0,1]] = [2] := by
  norm_num [predictCats, jointRow, nonzeroCols, argmaxIdx, List.range_succ,
    List.filter_cons, List.getD, decide_eq_true_eq]

/-! ### The claims -/

/-- C1: for every valid fit input `(X, y)` with `n_samples` rows, for each
distinct class value `c` (stored at row `c - 1`) and each feature `j`, the
fitted model entry equals `(m_cj + a_cj) / (n_c + a_cj + 1)`, where `m_cj`
is the column-wise sum of feature `j` over rows labelled `c`, `n_c` the
number of rows labelled `c`, `b_c = n_c / 10`, `F_j` the sum of `m_cj`
over all classes, and `a_cj = b_c * F_j / n_samples`. -/
theorem claim_C1 (X : List (List ℚ)) (y : List ℕ) (M : List (List ℚ)) (c j : ℕ)
    (hy : ∀ b ∈ y, 1 ≤ b) (_hlen : X.length = y.length)
    (hfit : fitModel X y = some M) (hc : c ∈ binsOf y) (hj : j < nFeatures X) :
    (M.getD (c - 1) []).getD j 0 = specEntry X y c j :=
  fitModel_entry hy hfit hc hj

/-- Witness for C1 at the concrete two-class training set. -/
theorem claim_C1_witness :
    (([[(21 : ℚ)/31, 1/31], [1/31, 21/31]].getD 0 []).getD 0 0) =
      specEntry [[1,0],[1,0],[0,1],[0,1]] [1,1,2,2] 1 0 :=
  claim_C1 [[1,0],[1,0],[0,1],[0,1]] [1,1,2,2] [[21/31, 1/31], [1/31, 21/31]] 1 0
    (by decide) (by decide) fitDemo_eq (by decide) (by decide)

/-- C2 counterexample: with `n_classes = 2` and the valid training set
`X = [[1,0],[1,0]]`, `y = [1,2]`, feature 1 never occurs, and the fitted
entry at `(class 1, feature 1)` is exactly `0` — not strictly inside
`(0, 1)` as the claim states. -/
theorem claim_C2_counterexample :
    (fitModel [[1,0],[1,0]] [1,2]).isSome = true ∧
      (((fitModel [[1,0],[1,0]] [1,2]).getD []).getD 0 []).getD 1 0 = 0 ∧
      ¬ (0 < (((fitModel [[1,0],[1,0]] [1,2]).getD []).getD 0 []).getD 1 0) := by
  rw [fitZeroColumn_eq]
  refine ⟨rfl, rfl, ?_⟩
  norm_num

/-- C2 (amended): for every valid fit input, every entry of the fitted
model lies in `[0, 1)` — the upper bound is strict, but the lower bound is
attained exactly by features that never occur in `X` — and an entry is
strictly positive whenever its feature's total popularity `F_j` over the
training set is positive. -/
theorem claim_C2 (X : List (List ℚ)) (y : List ℕ) (M : List (List ℚ)) (i j : ℕ)
    (hy : ∀ b ∈ y, 1 ≤ b) (hbin : ∀ r ∈ X, ∀ v ∈ r, v = 0 ∨ v = 1)
    (hlen : X.length = y.length) (hfit : fitModel X y = some M)
    (hi : i < M.length) (hj : j < (M.getD i []).length) :
    0 ≤ (M.getD i []).getD j 0 ∧ (M.getD i []).getD j 0 < 1 ∧
      (0 < ((binsOf y).map (fun b => mCount X y b j)).sum →
        0 < (M.getD i []).getD j 0) :=
  fitModel_entry_bounds hy hbin hlen hfit hi hj

/-- Witness for C2 at the concrete two-class training set. -/
theorem claim_C2_witness :
    0 ≤ (([[(21 : ℚ)/31, 1/31], [1/31, 21/31]].getD 0 []).getD 0 0) ∧
      (([[(21 : ℚ)/31, 1/31], [1/31, 21/31]].getD 0 []).getD 0 0) < 1 ∧
      (0 < ((binsOf [1,1,2,2]).map
          (fun b => mCount [[1,0],[1,0],[0,1],[0,1]] [1,1,2,2] b 0)).sum →
        0 < (([[(21 : ℚ)/31, 1/31], [1/31, 21/31]].getD 0 []).getD 0 0)) :=
  claim_C2 [[1,0],[1,0],[0,1],[0,1]] [1,1,2,2] [[21/31, 1/31], [1/31, 21/31]] 0 0
    (by decide) (by decide) (by decide) fitDemo_eq (by decide) (by decide)

/-- C3 counterexample: an estimator constructed with `n_classes = 3` and
fitted on the valid input `X = [[1,0]]`, `y = [1]` stores a model with a
single row — `np.unique(y)` has one element — not the three rows the
claim's `(n_classes × n_features)` shape requires. -/
theorem claim_C3_counterexample :
    ((AgeDetector.init 3).fit [[1,0]] [1]).map (fun d => (d.model.getD []).length)
      = some 1 ∧ (1 : ℕ) ≠ 3 := by
  refine ⟨?_, by decide⟩
  rw [AgeDetector.fit, fitOneClass_eq]
  rfl

/-- C3 (amended): the model matrix produced by a successful fit has shape
`k × n_features`, where `k` is the number of distinct label values of `y`
(which equals the constructor's `n_classes` exactly when every class
occurs in `y`) and `n_features` is the column count of `X`. -/
theorem claim_C3 (X : List (List ℚ)) (y : List ℕ) (M : List (List ℚ))
    (hy : ∀ b ∈ y, 1 ≤ b) (hfit : fitModel X y = some M) :
    M.length = (binsOf y).length ∧ ∀ r ∈ M, r.length = nFeatures X :=
  fitModel_shape hy hfit

/-- Witness for C3 at the concrete two-class training set. -/
theorem claim_C3_witness :
    ([[(21 : ℚ)/31, 1/31], [1/31, 21/31]] : List (List ℚ)).length
        = (binsOf [1,1,2,2]).length ∧
      ∀ r ∈ ([[(21 : ℚ)/31, 1/31], [1/31, 21/31]] : List (List ℚ)),
        r.length = nFeatures [[1,0],[1,0],[0,1],[0,1]] :=
  claim_C3 [[1,0],[1,0],[0,1],[0,1]] [1,1,2,2] [[21/31, 1/31], [1/31, 21/31]]
    (by decide) fitDemo_eq

/-- C4: for every predict input on a trained estimator whose model rows do
not exceed `n_classes`, predict returns exactly one label per input row,
and every returned label lies in `[1, n_classes]`.  (No assumption on the
input's feature count is needed: absent columns contribute nothing, so the
theorem covers in particular every input whose feature count matches the
fitted model.) -/
theorem claim_C4 (d : AgeDetector) (m : List (List ℚ)) (X : List (List ℚ))
    (hm : d.model = some m) (h1 : 1 ≤ m.length) (h2 : m.length ≤ d.n_classes) :
    d.predict X = Except.ok (predictCats m X) ∧
      (predictCats m X).length = X.length ∧
      ∀ v ∈ predictCats m X, 1 ≤ v ∧ v ≤ d.n_classes := by
  refine ⟨?_, ?_, ?_⟩
  · unfold AgeDetector.predict
    rw [hm]
  · unfold predictCats
    rw [List.length_map]
  · intro v hv
    unfold predictCats at hv
    rw [List.mem_map] at hv
    obtain ⟨xrow, _, rfl⟩ := hv
    have hlt := argmaxIdx_lt_length 0 (jointRow m xrow)
      (by rw [jointRow_length]; omega)
    rw [jointRow_length] at hlt
    omega

/-- Witness for C4 on a trained two-class estimator. -/
theorem claim_C4_witness :
    (AgeDetector.mk 2 [1/2, 1/2] (some [[21/31, 1/31], [1/31, 21/31]])).predict
        [[1,0],[0,0]]
      = Except.ok (predictCats [[21/31, 1/31], [1/31, 21/31]] [[1,0],[0,0]]) ∧
      (predictCats [[21/31, 1/31], [1/31, 21/31]] [[1,0],[0,0]]).length
        = ([[1,0],[0,0]] : List (List ℚ)).length ∧
      ∀ v ∈ predictCats [[21/31, 1/31], [1/31, 21/31]] [[1,0],[0,0]],
        1 ≤ v ∧ v ≤ (AgeDetector.mk 2 [1/2, 1/2]
          (some [[21/31, 1/31], [1/31, 21/31]])).n_classes :=
  claim_C4 (AgeDetector.mk 2 [1/2, 1/2] (some [[21/31, 1/31], [1/31, 21/31]]))
    [[21/31, 1/31], [1/31, 21/31]] [[1,0],[0,0]] rfl (by decide) (by decide)

/-- C5: the end-to-end scenario: with `n_classes = 2`, fitting on
`[[1,0],[1,0],[0,1],[0,1]]` with labels `[1,1,2,2]` succeeds; class 1's
model row weights feature 0 strictly above feature 1 and class 2's row
weights feature 1 strictly above feature 0; predicting on `[[1,0]]`
returns class 1 and on `[[0,1]]` returns class 2. -/
theorem claim_C5 :
    (fitModel [[1,0],[1,0],[0,1],[0,1]] [1,1,2,2]).isSome = true ∧
    (((fitModel [[1,0],[1,0],[0,1],[0,1]] [1,1,2,2]).getD []).getD 0 []).getD 1 0
      < (((fitModel [[1,0],[1,0],[0,1],[0,1]] [1,1,2,2]).getD []).getD 0 []).getD 0 0 ∧
    (((fitModel [[1,0],[1,0],[0,1],[0,1]] [1,1,2,2]).getD []).getD 1 []).getD 0 0
      < (((fitModel [[1,0],[1,0],[0,1],[0,1]] [1,1,2,2]).getD []).getD 1 []).getD 1 0 ∧
    ((AgeDetector.init 2).fit [[1,0],[1,0],[0,1],[0,1]] [1,1,2,2]).map
        (fun d => d.predict [[1,0]]) = some (Except.ok [1]) ∧
    ((AgeDetector.init 2).fit [[1,0],[1,0],[0,1],[0,1]] [1,1,2,2]).map
        (fun d => d.predict [[0,1]]) = some (Except.ok [2]) := by
  have hf := fitDemo_eq
  refine ⟨by rw [hf]; rfl, ?_, ?_, ?_, ?_⟩
  · rw [hf]
    show (1 : ℚ)/31 < 21/31
    norm_num
  · rw [hf]
    show (1 : ℚ)/31 < 21/31
    norm_num
  · rw [AgeDetector.fit, hf]
    show some (Except.ok (predictCats [[(21 : ℚ)/31, 1/31], [1/31, 21/31]] [[1,0]]))
      = some (Except.ok [1])
    rw [predictDemo_one]
  · rw [AgeDetector.fit, hf]
    show some (Except.ok (predictCats [[(21 : ℚ)/31, 1/31], [1/31, 21/31]] [[0,1]]))
      = some (Except.ok [2])
    rw [predictDemo_two]

/-- C6: increasing a single (class, feature) positive count by one —
which also increases that feature's total popularity `F` by one, with the
bucket counts and the sample count held fixed — strictly increases the
smoothed model entry. -/
theorem claim_C6 (m n F nd : ℚ) (hm0 : 0 ≤ m) (hmn : m ≤ n) (hF : 0 ≤ F)
    (hn0 : 0 ≤ n) (hnd : 0 < nd) :
    smoothedProb m n F nd < smoothedProb (m + 1) n (F + 1) nd :=
  smoothedProb_strictMono hm0 hmn hF hn0 hnd

/-- Witness for C6 at `m = 0`, `n = 1`, `F = 0`, `nd = 1`. -/
theorem claim_C6_witness :
    smoothedProb 0 1 0 1 < smoothedProb (0 + 1) 1 (0 + 1) 1 :=
  claim_C6 0 1 0 1 (by norm_num) (by norm_num) (by norm_num) (by norm_num) (by norm_num)

/-- C7: a fully-zero input row accumulates an all-equal joint score, so
`np.argmax` deterministically returns the lowest index and the predicted
class is 1. -/
theorem claim_C7 (m : List (List ℚ)) (X : List (List ℚ)) (i : ℕ)
    (hm : 0 < m.length) (hi : i < X.length) (hz : ∀ v ∈ X.getD i [], v = 0) :
    (predictCats m X).getD i 0 = 1 := by
  unfold predictCats
  rw [List.getD_eq_getElem _ _ (by simpa using hi), List.getElem_map]
  have hxi : ∀ v ∈ X[i], v = 0 := by
    intro v hv
    apply hz v
    rw [List.getD_eq_getElem _ _ hi]
    exact hv
  rw [jointRow_of_zero_row hxi]
  rw [argmaxIdx_of_le_head]
  intro j hj
  rw [List.length_map, List.length_range] at hj
  rw [getD_map_range _ hj, getD_map_range _ hm]

/-- Witness for C7: a zero row predicted on a trained two-class model. -/
theorem claim_C7_witness :
    (predictCats [[(21 : ℚ)/31, 1/31], [1/31, 21/31]] [[0,0]]).getD 0 0 = 1 :=
  claim_C7 [[21/31, 1/31], [1/31, 21/31]] [[0,0]] 0 (by decide) (by decide) (by decide)

/-- C8 counterexample: predict on a freshly constructed estimator fails
with the `AttributeError` of dereferencing the unset (`None`) model, and
not with the explicit "model not trained" error the claim asserts. -/
theorem claim_C8_counterexample :
    (AgeDetector.init 7).predict [[1,0]] = Except.error PredictError.noneTypeAttribute ∧
      (AgeDetector.init 7).predict [[1,0]] ≠ Except.error PredictError.modelNotTrained := by
  refine ⟨rfl, ?_⟩
  intro h
  cases h

/-- C8 (amended): if predict is called while the model is unset (no
successful fit has happened), the call fails — but the failure is the
attribute error of dereferencing `None`, a null-dereference-style
failure, since the code contains no explicit "model not trained" check. -/
theorem claim_C8 (d : AgeDetector) (X : List (List ℚ)) (h : d.model = none) :
    d.predict X = Except.error PredictError.noneTypeAttribute := by
  unfold AgeDetector.predict
  rw [h]

/-- Witness for C8 on a freshly constructed estimator. -/
theorem claim_C8_witness :
    (AgeDetector.init 7).predict [[1]] = Except.error PredictError.noneTypeAttribute :=
  claim_C8 (AgeDetector.init 7) [[1]] rfl

/-- C9: `fit` fully overwrites the model, so fitting twice with the same
input leaves the estimator exactly as a single fit does. -/
theorem claim_C9 (d d1 : AgeDetector) (X : List (List ℚ)) (y : List ℕ)
    (hfit : d.fit X y = some d1) : d1.fit X y = some d1 := by
  unfold AgeDetector.fit at hfit ⊢
  obtain ⟨m, hm, hd1⟩ := Option.map_eq_some'.mp hfit
  rw [hm]
  subst hd1
  rfl

/-- Witness for C9 at the concrete two-class training set. -/
theorem claim_C9_witness :
    (AgeDetector.mk 2 (List.replicate 2 ((1 : ℚ) / 2))
        (some [[21/31, 1/31], [1/31, 21/31]])).fit
        [[1,0],[1,0],[0,1],[0,1]] [1,1,2,2]
      = some (AgeDetector.mk 2 (List.replicate 2 ((1 : ℚ) / 2))
          (some [[21/31, 1/31], [1/31, 21/31]])) :=
  claim_C9 (AgeDetector.init 2)
    (AgeDetector.mk 2 (List.replicate 2 ((1 : ℚ) / 2))
      (some [[21/31, 1/31], [1/31, 21/31]]))
    [[1,0],[1,0],[0,1],[0,1]] [1,1,2,2]
    (by rw [AgeDetector.fit, fitDemo_eq]; rfl)

/-- C10: for labels that are (as the data model requires) at least 1, the
bucketing loop completes without the out-of-bounds `IndexError` exactly
when the distinct values of `y` form the contiguous range `1, ..., k`
with `k` their number. -/
theorem claim_C10 (X : List (List ℚ)) (y : List ℕ) (hy : ∀ b ∈ y, 1 ≤ b) :
    (fitModel X y).isSome ↔ binsOf y = List.range' 1 (binsOf y).length :=
  fitModel_isSome_iff hy

/-- Witness for C10: labels `[1, 3]` skip label 2, and fit indeed raises
(returns `none`), in accordance with the equivalence. -/
theorem claim_C10_witness :
    ((fitModel [[1,0],[0,1]] [1,3]).isSome
      ↔ binsOf [1,3] = List.range' 1 (binsOf [1,3]).length) :=
  claim_C10 [[1,0],[0,1]] [1,3] (by decide)
